import Mathlib

/-!
Verification of the EFM8 AN945 HID bootloader flasher (efm8.py) against its
natural-language specification.  The Python source is shallowly embedded:
pure helpers become Lean functions, the in-place mutation of the image buffer
in `to_frames` is made explicit by returning the final contents of the
caller's buffer alongside the frames, and fallible code returns
`Except Err _` / `Option _`.
-/

/-- Command codes of the bootloader protocol (efm8.py lines 35-39). -/
def SETUP : Nat := 0x31

/-- ERASE command code. -/
def ERASE : Nat := 0x32

/-- WRITE command code. -/
def WRITE : Nat := 0x33

/-- VERIFY command code. -/
def VERIFY : Nat := 0x34

/-- RUN command code. -/
def RUN : Nat := 0x36

/-- The error taxonomy of efm8.py: `Unsupported`, `BadChecksum`, `BadResponse`,
plus `pyError` standing for an uncaught Python exception (ValueError from a
failed `int(_, 16)`, IndexError from indexing an empty list). -/
inductive Err where
  | unsupported
  | badChecksum
  | badResponse
  | pyError
deriving Repr, DecidableEq

/-- Python `((input_value & mask) - (input_value & ~mask)) & (2**num_bits - 1)`
from `twos_complement` (efm8.py lines 53-56).  Python integers are
infinite-precision two's complement, which is exactly the semantics of
`Int.land` / `Int.not`.  The source gives `num_bits` the default value 8;
callers here pass 8 explicitly. -/
def twos_complement (input_value : Int) (num_bits : Nat) : Int :=
  let mask : Int := 2 ^ (num_bits - 1)
  Int.land (Int.land input_value mask - Int.land input_value (~~~mask))
    (2 ^ num_bits - 1)

/-- Python `[addr >> 8, addr & 0xFF]` from `toaddr` (efm8.py lines 58-60). -/
def toaddr (addr : Nat) : List Nat :=
  [addr >>> 8, addr &&& 0xFF]

/-- One shift-and-conditional-xor step of the CRC-CCITT computation. -/
def crcStep (c : Nat) : Nat :=
  if c &&& 0x8000 ≠ 0 then ((c <<< 1) ^^^ 0x1021) &&& 0xFFFF
  else (c <<< 1) &&& 0xFFFF

/-- Fold one input byte into the CRC state: xor it into the high byte and run
eight `crcStep`s. -/
def crcByte (c b : Nat) : Nat :=
  (List.range 8).foldl (fun acc _ => crcStep acc) (c ^^^ (b <<< 8))

/-- CRC-CCITT, XModem variant: polynomial 0x1021, initial value 0x0000,
MSB first.  This models the external `PyCRC.CRCCCITT().calculate` dependency
called by `crc` (efm8.py lines 62-66); the spec fixes the variant, polynomial
and initial value. -/
def crc16 (data : List Nat) : Nat :=
  data.foldl crcByte 0

/-- Python `crc` (efm8.py lines 62-66): the 16-bit CRC as two bytes, high
byte first. -/
def crc (data : List Nat) : List Nat :=
  [crc16 data >>> 8, crc16 data &&& 0xFF]

/-- Python `create_frame` (efm8.py lines 68-74):
`[ord("$"), 1 + len(data), cmd] + data`. -/
def create_frame (cmd : Nat) (data : List Nat) : List Nat :=
  '$'.toNat :: (1 + data.length) :: cmd :: data

/-- Python slice `l[a:b]` for `0 ≤ a ≤ b` (clamped at the list's length). -/
def pySlice (l : List α) (a b : Nat) : List α :=
  (l.take b).drop a

/-- Python `list(range(a, b, step))` for a positive step. -/
def pyRange (a b step : Nat) : List Nat :=
  (List.range ((b - a + step - 1) / step)).map (fun i => a + step * i)

/-- Python `to_frames` (efm8.py lines 103-126).  The source mutates the
caller's list (`data[0] = 0xFF`, never undone); the embedding returns
`some (frames, post)` where `post` is the caller's buffer after the call.
On the empty list the source raises IndexError at `data[0]`, embedded as
`none`. -/
def to_frames (data : List Nat) (checksum : Bool) (run : Bool) :
    Option (List (List Nat) × List Nat) :=
  match data with
  | [] => none
  | data_zero :: tl =>
    let d := 0xFF :: tl
    let chunks := (pyRange 0 d.length 128).map (fun addr =>
      create_frame (if addr % 0x200 = 0 then ERASE else WRITE)
        (toaddr addr ++ pySlice d addr (addr + 128)))
    let fs := create_frame SETUP [0xa5, 0xf1, 0x00] :: chunks
      ++ (if checksum then
            [create_frame VERIFY ([0, 0] ++ toaddr (d.length - 1) ++ crc d)]
          else [])
      ++ [create_frame WRITE [0, 0, data_zero]]
      ++ (if run then [create_frame RUN [0, 0]] else [])
    some (fs, d)

/-- Value of one hexadecimal digit character, `none` for a non-digit. -/
def hexDigit (c : Char) : Option Nat :=
  if '0' ≤ c ∧ c ≤ '9' then some (c.toNat - '0'.toNat)
  else if 'a' ≤ c ∧ c ≤ 'f' then some (c.toNat - 'a'.toNat + 10)
  else if 'A' ≤ c ∧ c ≤ 'F' then some (c.toNat - 'A'.toNat + 10)
  else none

/-- Accumulator loop for `parseHex`. -/
def parseHexAux : List Char → Nat → Option Nat
  | [], acc => some acc
  | c :: cs, acc =>
    match hexDigit c with
    | none => none
    | some d => parseHexAux cs (16 * acc + d)

/-- Python `int(s, 16)` on the slices the parser feeds it: a non-empty string
of plain hex digits.  A failed parse (empty slice or a non-digit, Python's
ValueError) is `none`; the sign, radix-marker and whitespace forms `int`
would also accept never arise from well-formed record slices and are modelled
as failures. -/
def parseHex : List Char → Option Nat
  | [] => none
  | s => parseHexAux s 0

/-- Python `line.startswith(p)`. -/
def startswith (p s : List Char) : Bool :=
  s.take p.length == p

/-- Parse the 2-character slices `line[x:x+2]` for each `x` in `xs`, failing
if any slice fails to parse (models the list comprehensions of
`read_intel_hex`). -/
def parseHexPairs (line : List Char) : List Nat → Option (List Nat)
  | [] => some []
  | x :: rest =>
    match parseHex (pySlice line x (x + 2)), parseHexPairs line rest with
    | some v, some vs => some (v :: vs)
    | _, _ => none

/-- Python `twos_complement(sum(record_bytes) & 0xFF)`: the 8-bit record
checksum as used at efm8.py lines 93-95; the spec names this value
`record_checksum`. -/
def record_checksum (bs : List Nat) : Int :=
  twos_complement (Int.land (bs.sum : Int) 0xFF) 8

/-- The `:020000040000FA` default extended-linear-address line prefix. -/
def elaMark : List Char :=
  [':', '0', '2', '0', '0', '0', '0', '0', '4', '0', '0', '0', '0', 'F', 'A']

/-- The `:00000001FF` end-of-file line prefix. -/
def eofMark : List Char :=
  [':', '0', '0', '0', '0', '0', '0', '0', '1', 'F', 'F']

/-- The final `if data == []: raise Unsupported` / `return data` of
`read_intel_hex` (efm8.py lines 99-101), reached when the lines run out or an
end-of-file record is met. -/
def finishHex (data : List Nat) : Except Err (List Nat) :=
  if data = [] then .error .unsupported else .ok data

/-- The per-line loop of Python `read_intel_hex` (efm8.py lines 81-98), with
the accumulated image `data` and running byte count `address` made explicit.
Each branch mirrors one source line, in source order; hex-parse failures
(Python ValueError) surface as `Err.pyError`, as does indexing an empty
line. -/
def readHexGo : List (List Char) → List Nat → Nat → Except Err (List Nat)
  | [], data, _ => finishHex data
  | line :: rest, data, address =>
    match line with
    | [] => .error .pyError
    | c :: _ =>
      if c ≠ ':' then readHexGo rest data address
      else if startswith elaMark line then readHexGo rest data address
      else if startswith eofMark line then finishHex data
      else if pySlice line 7 9 ≠ ['0', '0'] then .error .unsupported
      else
        match parseHex (pySlice line 3 7) with
        | none => .error .pyError
        | some a =>
          if a ≠ address then .error .unsupported
          else
            match parseHex (pySlice line 1 3) with
            | none => .error .pyError
            | some cnt =>
              let length := 9 + cnt * 2
              match parseHex (pySlice line length (length + 2)),
                    parseHexPairs line (pyRange 1 length 2) with
              | some cb, some recbytes =>
                if (cb : Int) ≠ record_checksum recbytes then
                  .error .badChecksum
                else
                  match parseHexPairs line (pyRange 9 length 2) with
                  | some dbytes => readHexGo rest (data ++ dbytes) (address + cnt)
                  | none => .error .pyError
              | _, _ => .error .pyError

/-- Python `read_intel_hex` (efm8.py lines 76-101) on the file's lines. -/
def read_intel_hex (lines : List (List Char)) : Except Err (List Nat) :=
  readHexGo lines [] 0

/-- The per-frame loop of Python `flash` (efm8.py lines 137-147).  `acks i` is
the last byte of the 2-byte report the device returns after the `i`-th frame
(counting from the position `i0` of the first frame still to send).  Returns
the frames actually sent, in order, and the outcome: `Err.badChecksum` when a
frame other than the success sentinel 64 acknowledges a VERIFY frame
(`frame[2]` is the command byte), `Err.badResponse` otherwise. -/
def flashGo (acks : Nat → Nat) : List (List Nat) → Nat → List (List Nat) × Except Err Unit
  | [], _ => ([], .ok ())
  | frame :: rest, i0 =>
    if acks i0 = 64 then
      let r := flashGo acks rest (i0 + 1)
      (frame :: r.1, r.2)
    else
      ([frame],
        .error (if frame.getD 2 0 = VERIFY then .badChecksum else .badResponse))

/-- Python `flash` restricted to its protocol core: the frames sent and the
outcome, for a device whose acknowledgement bytes are `acks`. -/
def flash (frames : List (List Nat)) (acks : Nat → Nat) :
    List (List Nat) × Except Err Unit :=
  flashGo acks frames 0


/-- First component of a `to_frames` result: the frame list. -/
def framesOf (o : Option (List (List Nat) × List Nat)) : List (List Nat) :=
  (o.getD ([], [])).1

/-- Second component of a `to_frames` result: the caller's buffer after the
call. -/
def postOf (o : Option (List (List Nat) × List Nat)) : List Nat :=
  (o.getD ([], [])).2

/-- Decidable equality of parser results, for evaluating the model on
concrete inputs. -/
instance : DecidableEq (Except Err (List Nat)) := fun x y =>
  match x, y with
  | .error a, .error b =>
    if h : a = b then .isTrue (by rw [h]) else .isFalse (fun hc => h (Except.error.inj hc))
  | .ok a, .ok b =>
    if h : a = b then .isTrue (by rw [h]) else .isFalse (fun hc => h (Except.ok.inj hc))
  | .error _, .ok _ => .isFalse (fun hc => Except.noConfusion hc)
  | .ok _, .error _ => .isFalse (fun hc => Except.noConfusion hc)

/-- Casting `Int.land` on two natural numbers to the natural-number `&&&`. -/
lemma int_land_coe (a b : Nat) : Int.land (a : Int) (b : Int) = ((a &&& b : Nat) : Int) := rfl

/-- Bitwise `a & ~b` on naturals embedded in `Int` is `Nat.ldiff`. -/
lemma int_land_coe_not (a b : Nat) :
    Int.land (a : Int) (~~~(b : Int)) = ((Nat.ldiff a b : Nat) : Int) := rfl

/-- Bitwise and of a negative integer with a natural number is `Nat.ldiff`. -/
lemma int_land_negSucc_coe (a b : Nat) :
    Int.land (Int.negSucc a) (b : Int) = ((Nat.ldiff b a : Nat) : Int) := rfl

/-- Clearing the bits of `a` from the all-ones word is subtraction. -/
lemma ldiff_ones {n a : Nat} (h : a < 2 ^ n) :
    Nat.ldiff (2 ^ n - 1) a = 2 ^ n - 1 - a := by
  apply Nat.eq_of_testBit_eq
  intro i
  have h1 : 2 ^ n - 1 - a = 2 ^ n - (a + 1) := by omega
  rw [Nat.testBit_ldiff, Nat.testBit_two_pow_sub_one, h1,
    Nat.testBit_two_pow_sub_succ h]

/-- Clearing the top bit of a `k+1`-bit number reduces it modulo `2^k`. -/
lemma ldiff_two_pow {k v : Nat} (h : v < 2 ^ (k + 1)) :
    Nat.ldiff v (2 ^ k) = v % 2 ^ k := by
  apply Nat.eq_of_testBit_eq
  intro i
  rw [Nat.testBit_ldiff, Nat.testBit_two_pow, Nat.testBit_mod_two_pow]
  rcases lt_trichotomy i k with hik | rfl | hik
  · simp [Nat.ne_of_gt hik, hik]
  · simp
  · have hv : Nat.testBit v i = false :=
      Nat.testBit_lt_two_pow (lt_of_lt_of_le h (Nat.pow_le_pow_right (by norm_num) hik))
    simp [hv, Nat.ne_of_lt hik, Nat.lt_asymm hik]

/-- A number below `2^k` has no `2^k` bit. -/
lemma and_two_pow_low {k v : Nat} (h : v < 2 ^ k) : v &&& 2 ^ k = 0 := by
  rw [Nat.and_two_pow, Nat.testBit_lt_two_pow h]
  simp

/-- A `k+1`-bit number at least `2^k` has its `2^k` bit set. -/
lemma and_two_pow_high {k v : Nat} (h1 : 2 ^ k ≤ v) (h2 : v < 2 ^ (k + 1)) :
    v &&& 2 ^ k = 2 ^ k := by
  rw [Nat.and_two_pow]
  have hdiv : v / 2 ^ k = 1 := by
    apply Nat.div_eq_of_lt_le (by simpa using h1)
    simpa [Nat.two_mul, Nat.pow_succ, Nat.mul_comm] using h2
  rw [Nat.testBit_to_div_mod, hdiv]
  simp

/-- The width-parametric formula of `twos_complement` computes negation
modulo `2^n` on `n`-bit inputs. -/
lemma twos_complement_eq_neg_mod (n : Nat) (hn : 1 ≤ n) (v : Nat) (hv : v < 2 ^ n) :
    twos_complement (v : Int) n = ((2 ^ n : Int) - (v : Int)) % 2 ^ n := by
  obtain ⟨k, rfl⟩ : ∃ k, n = k + 1 := ⟨n - 1, by omega⟩
  unfold twos_complement
  dsimp only
  have hmask : (2 : Int) ^ (k + 1 - 1) = ((2 ^ k : Nat) : Int) := by
    push_cast; norm_num
  have hones : (2 : Int) ^ (k + 1) - 1 = ((2 ^ (k + 1) - 1 : Nat) : Int) := by
    have := Nat.one_le_two_pow (n := k + 1)
    push_cast [this]; ring
  rw [hmask, hones, int_land_coe, int_land_coe_not, ldiff_two_pow hv]
  by_cases hlow : v < 2 ^ k
  · rw [and_two_pow_low hlow, Nat.mod_eq_of_lt hlow]
    rcases Nat.eq_zero_or_pos v with rfl | hpos
    · rw [show ((0 : Nat) : Int) - ((0 : Nat) : Int) = ((0 : Nat) : Int) by simp,
        int_land_coe]
      simp
    · have hneg : ((0 : Nat) : Int) - (v : Int) = Int.negSucc (v - 1) := by
        rw [Int.negSucc_eq]; push_cast [hpos]; ring
      rw [hneg, int_land_negSucc_coe, ldiff_ones (by omega),
        show 2 ^ (k + 1) - 1 - (v - 1) = 2 ^ (k + 1) - v by omega]
      rw [Int.emod_eq_of_lt (by omega) (by omega)]
      omega
  · have hge : 2 ^ k ≤ v := by omega
    rw [and_two_pow_high hge hv]
    have hmod : v % 2 ^ k = v - 2 ^ k := by
      have h2 : 2 ^ (k + 1) = 2 * 2 ^ k := by ring
      rw [Nat.mod_eq_sub_mod hge, Nat.mod_eq_of_lt (by omega)]
    rw [hmod]
    have hdiff : ((2 ^ k : Nat) : Int) - ((v - 2 ^ k : Nat) : Int) =
        ((2 ^ (k + 1) - v : Nat) : Int) := by
      have h2 : 2 ^ (k + 1) = 2 * 2 ^ k := by ring
      omega
    have hlt : 2 ^ (k + 1) - v < 2 ^ (k + 1) := by
      have h2 : 2 ^ (k + 1) = 2 * 2 ^ k := by ring
      have h3 := Nat.two_pow_pos k
      omega
    rw [hdiff, int_land_coe, Nat.and_pow_two_sub_one_eq_mod, Nat.mod_eq_of_lt hlt]
    rw [Int.emod_eq_of_lt (by omega) (by omega)]
    omega

/-- C9: for every width `n ≥ 1` and every `v < 2^n`, the generic formula
`((v & high_bit) - (v & ~high_bit)) & (2^n - 1)` of `twos_complement`
(efm8.py lines 53-56) equals `(2^n - v) mod 2^n`, the negation of `v`
modulo `2^n`; consequently, for every byte sequence, the sum of the bytes
plus the 8-bit record checksum used at efm8.py lines 93-95 is congruent to
0 modulo 256. -/
theorem twos_complement_spec (n : Nat) (hn : 1 ≤ n) (v : Nat) (hv : v < 2 ^ n)
    (bs : List Nat) :
    twos_complement (v : Int) n = ((2 ^ n : Int) - (v : Int)) % 2 ^ n ∧
    ((bs.sum : Int) + record_checksum bs) % 256 = 0 := by
  refine ⟨twos_complement_eq_neg_mod n hn v hv, ?_⟩
  unfold record_checksum
  have h255 : (0xFF : Int) = ((255 : Nat) : Int) := by norm_num
  rw [h255, int_land_coe]
  have h1 : bs.sum &&& 255 = bs.sum % 256 := by
    have := Nat.and_pow_two_sub_one_eq_mod bs.sum 8
    norm_num at this
    exact this
  rw [h1, twos_complement_eq_neg_mod 8 (by norm_num) _ (by omega)]
  omega

/-- Witness for `twos_complement_spec` at `n = 8`, `v = 19`,
`bs = [250, 250]`. -/
theorem twos_complement_spec_witness :
    (1 ≤ 8 ∧ 19 < 2 ^ 8) ∧
    (twos_complement ((19 : Nat) : Int) 8 =
        ((2 ^ 8 : Int) - ((19 : Nat) : Int)) % 2 ^ 8 ∧
      ((([250, 250] : List Nat).sum : Int) + record_checksum [250, 250]) % 256 = 0) :=
  ⟨⟨by norm_num, by norm_num⟩, twos_complement_spec 8 (by norm_num) 19 (by norm_num) [250, 250]⟩

/-- When every acknowledgement from position `i0` on is the success sentinel,
every frame is sent and the session succeeds. -/
lemma flashGo_all_ok (acks : Nat → Nat) :
    ∀ (fs : List (List Nat)) (i0 : Nat),
      (∀ k, k < fs.length → acks (i0 + k) = 64) →
      flashGo acks fs i0 = (fs, .ok ()) := by
  intro fs
  induction fs with
  | nil => intro i0 _; rfl
  | cons f rest ih =>
    intro i0 hall
    have h0 : acks i0 = 64 := by simpa using hall 0 (by simp)
    have hrest : flashGo acks rest (i0 + 1) = (rest, .ok ()) := by
      apply ih
      intro k hk
      have h := hall (k + 1) (by simpa using Nat.succ_lt_succ hk)
      have e : i0 + 1 + k = i0 + (k + 1) := by omega
      rw [e]; exact h
    simp [flashGo, h0, hrest]

/-- When the first non-success acknowledgement is for the `j`-th remaining
frame, exactly frames `0..j` are sent and the session aborts, classifying the
failure by whether the acknowledged frame's command byte is VERIFY. -/
lemma flashGo_fail (acks : Nat → Nat) :
    ∀ (fs : List (List Nat)) (i0 j : Nat), j < fs.length →
      (∀ k, k < j → acks (i0 + k) = 64) → acks (i0 + j) ≠ 64 →
      flashGo acks fs i0 = (fs.take (j + 1),
        .error (if (fs.getD j []).getD 2 0 = VERIFY then Err.badChecksum
                else Err.badResponse)) := by
  intro fs
  induction fs with
  | nil => intro i0 j hj; simp at hj
  | cons f rest ih =>
    intro i0 j hj hgood hbad
    cases j with
    | zero =>
      simp only [Nat.add_zero] at hbad
      simp [flashGo, hbad]
    | succ j' =>
      have h0 : acks i0 = 64 := by simpa using hgood 0 (Nat.succ_pos _)
      have hrest := ih (i0 + 1) j' (by simpa using Nat.lt_of_succ_lt_succ hj)
        (fun k hk => by
          have h := hgood (k + 1) (Nat.succ_lt_succ hk)
          have e : i0 + 1 + k = i0 + (k + 1) := by omega
          rw [e]; exact h)
        (by
          have e : i0 + 1 + j' = i0 + (j' + 1) := by omega
          rw [e]; exact hbad)
      simp [flashGo, h0, hrest]

/-- C3: the session continues past a frame iff its acknowledgement byte is 64;
on the first other acknowledgement it aborts at once - frames after the
failing one are never sent - raising BadChecksum when the acknowledged frame
is VERIFY and BadResponse otherwise (efm8.py lines 137-147). -/
theorem flash_ack_protocol (frames : List (List Nat)) (acks : Nat → Nat) :
    ((∀ i, i < frames.length → acks i = 64) → flash frames acks = (frames, .ok ())) ∧
    (∀ j, j < frames.length → (∀ i, i < j → acks i = 64) → acks j ≠ 64 →
      flash frames acks = (frames.take (j + 1),
        .error (if (frames.getD j []).getD 2 0 = VERIFY then Err.badChecksum
                else Err.badResponse))) := by
  constructor
  · intro hall
    exact flashGo_all_ok acks frames 0 (fun k hk => by simpa using hall k hk)
  · intro j hj hgood hbad
    exact flashGo_fail acks frames 0 j hj
      (fun k hk => by simpa using hgood k hk) (by simpa using hbad)

/-- Witness for `flash_ack_protocol`: three frames, with the device returning
65 to the second (a VERIFY frame); only the first two frames are sent and the
failure is a checksum failure. -/
theorem flash_ack_protocol_witness :
    (1 < ([create_frame SETUP [0xa5, 0xf1, 0x00], create_frame VERIFY [0, 0],
        create_frame RUN [0, 0]] : List (List Nat)).length ∧
      (fun i => if i = 0 then 64 else 65) 1 ≠ 64) ∧
    flash [create_frame SETUP [0xa5, 0xf1, 0x00], create_frame VERIFY [0, 0],
        create_frame RUN [0, 0]] (fun i => if i = 0 then 64 else 65) =
      ([create_frame SETUP [0xa5, 0xf1, 0x00], create_frame VERIFY [0, 0]],
        .error Err.badChecksum) := by
  refine ⟨⟨by norm_num, by norm_num⟩, ?_⟩
  have h := (flash_ack_protocol
    [create_frame SETUP [0xa5, 0xf1, 0x00], create_frame VERIFY [0, 0],
      create_frame RUN [0, 0]] (fun i => if i = 0 then 64 else 65)).2 1
    (by norm_num) (by intro i hi; interval_cases i; rfl) (by norm_num)
  simpa [create_frame, VERIFY] using h

/-- Explicit shape of the frame list built for a non-empty image
`d0 :: tl`. -/
lemma to_frames_cons (d0 : Nat) (tl : List Nat) (c r : Bool) :
    to_frames (d0 :: tl) c r = some (
      create_frame SETUP [0xa5, 0xf1, 0x00] ::
        ((List.range ((tl.length + 128) / 128)).map (fun i =>
          create_frame (if 128 * i % 512 = 0 then ERASE else WRITE)
            (toaddr (128 * i) ++ pySlice (0xFF :: tl) (128 * i) (128 * i + 128)))
        ++ ((if c then
              [create_frame VERIFY ([0, 0] ++ toaddr tl.length ++ crc (0xFF :: tl))]
            else [])
        ++ ([create_frame WRITE [0, 0, d0]]
        ++ (if r then [create_frame RUN [0, 0]] else [])))),
      0xFF :: tl) := by
  simp [to_frames, pyRange]

/-- A Python 128-byte slice has at most 128 elements. -/
lemma pySlice_chunk_le (l : List Nat) (a : Nat) :
    (pySlice l a (a + 128)).length ≤ 128 := by
  simp [pySlice]
  omega

/-- C4: for an image of length `N ≥ 1`, `to_frames` builds exactly
`ceil(N/128) = (N + 127) / 128` erase/write chunk frames (the frames between
the SETUP frame and the trailing VERIFY/WRITE/RUN frames); the chunk frame
for address `128 * i` is an ERASE frame iff `128 * i` is a multiple of 512
and otherwise a WRITE frame, and its payload is the 2-byte big-endian
address followed by the (at most 128) chunk bytes (efm8.py lines 109-115). -/
theorem chunk_frames_spec (d0 : Nat) (tl : List Nat) (c r : Bool)
    (fs : List (List Nat)) (post : List Nat)
    (h : to_frames (d0 :: tl) c r = some (fs, post)) :
    fs.length = 1 + (tl.length + 1 + 127) / 128 +
        ((if c then 1 else 0) + 1 + (if r then 1 else 0)) ∧
    (∀ i, i < (tl.length + 1 + 127) / 128 →
      fs.getD (1 + i) [] =
        create_frame (if 128 * i % 512 = 0 then ERASE else WRITE)
          (((128 * i) >>> 8) :: (128 * i &&& 0xFF) ::
            pySlice (0xFF :: tl) (128 * i) (128 * i + 128)) ∧
      (pySlice ((0xFF : Nat) :: tl) (128 * i) (128 * i + 128)).length ≤ 128) := by
  rw [to_frames_cons] at h
  rw [Option.some.injEq, Prod.mk.injEq] at h
  obtain ⟨hfs, hpost⟩ := h
  subst hfs
  have hN : tl.length + 1 + 127 = tl.length + 128 := by omega
  constructor
  · rw [hN]
    cases c <;> cases r <;> simp <;> omega
  · intro i hi
    rw [hN] at hi
    refine ⟨?_, pySlice_chunk_le _ _⟩
    rw [show 1 + i = i + 1 by omega]
    rw [List.getD_cons_succ]
    rw [List.getD_append _ _ _ _ (by simpa using hi)]
    rw [List.getD_eq_getElem _ _ (by simpa using hi)]
    simp [toaddr]

/-- Witness for `chunk_frames_spec` on the one-byte image `[0x12]`: one chunk
frame, five frames in total. -/
theorem chunk_frames_spec_witness :
    (to_frames ([0x12] : List Nat) true true).isSome = true ∧
    (framesOf (to_frames ([0x12] : List Nat) true true)).length = 5 := by
  have h := chunk_frames_spec 0x12 [] true true
    (framesOf (to_frames ([0x12] : List Nat) true true))
    (postOf (to_frames ([0x12] : List Nat) true true)) rfl
  refine ⟨rfl, ?_⟩
  rw [h.1]
  norm_num

/-- The second-to-last element of `x :: (M ++ [w, y])`. -/
lemma dropLast_getLast_tail2 (x w y : α) (M : List α) :
    (x :: (M ++ [w, y])).dropLast.getLast? = some w := by
  rw [← List.cons_append, List.dropLast_append_of_ne_nil _ (by simp),
    show ([w, y] : List α).dropLast = [w] from rfl]
  exact List.getLast?_concat _

/-- The second-to-last element of `x :: (M ++ [v, w, y])`. -/
lemma dropLast_getLast_tail3 (x v w y : α) (M : List α) :
    (x :: (M ++ [v, w, y])).dropLast.getLast? = some w := by
  rw [← List.cons_append, List.dropLast_append_of_ne_nil _ (by simp),
    show ([v, w, y] : List α).dropLast = [v, w] from rfl]
  simp [List.getLast?_cons, List.getLast?_append]

/-- C5: for every non-empty image the first frame built is the SETUP frame
with fixed payload `[0xA5, 0xF1, 0x00]`, and the frame list ends with the
restorative 1-byte WRITE to address 0 carrying the image's true first byte,
followed by the fixed RUN frame exactly when run is requested
(efm8.py lines 108 and 123-126). -/
theorem frames_first_last (d0 : Nat) (tl : List Nat) (c r : Bool)
    (fs : List (List Nat)) (post : List Nat)
    (h : to_frames (d0 :: tl) c r = some (fs, post)) :
    fs.head? = some (create_frame SETUP [0xa5, 0xf1, 0x00]) ∧
    (r = true → fs.getLast? = some (create_frame RUN [0, 0]) ∧
      fs.dropLast.getLast? = some (create_frame WRITE [0, 0, d0])) ∧
    (r = false → fs.getLast? = some (create_frame WRITE [0, 0, d0])) := by
  rw [to_frames_cons] at h
  rw [Option.some.injEq, Prod.mk.injEq] at h
  obtain ⟨hfs, hpost⟩ := h
  subst hfs
  refine ⟨rfl, ?_, ?_⟩
  · rintro rfl
    cases c <;>
    · simp [List.getLast?_cons, List.getLast?_append]
      first
      | exact dropLast_getLast_tail2 _ _ _ _
      | exact dropLast_getLast_tail3 _ _ _ _ _
  · rintro rfl
    cases c <;>
      simp [List.getLast?_cons, List.getLast?_append]

/-- Witness for `frames_first_last` on the image `[0x12, 0x34]` with run
requested. -/
theorem frames_first_last_witness :
    (framesOf (to_frames ([0x12, 0x34] : List Nat) true true)).head? =
        some (create_frame SETUP [0xa5, 0xf1, 0x00]) ∧
    (framesOf (to_frames ([0x12, 0x34] : List Nat) true true)).getLast? =
        some (create_frame RUN [0, 0]) ∧
    (framesOf (to_frames ([0x12, 0x34] : List Nat) true true)).dropLast.getLast? =
        some (create_frame WRITE [0, 0, 0x12]) := by
  have h := frames_first_last 0x12 [0x34] true true
    (framesOf (to_frames ([0x12, 0x34] : List Nat) true true))
    (postOf (to_frames ([0x12, 0x34] : List Nat) true true)) rfl
  exact ⟨h.1, (h.2.1 rfl).1, (h.2.1 rfl).2⟩

/-- C1 counterexample: on the one-byte image `[0x00]` with verification
requested, the VERIFY frame is not the frame whose trailing two bytes are
the CRC of the original image - `crc` is called only after the first byte
has been replaced by the 0xFF sentinel (efm8.py lines 106 and 120). -/
theorem verify_crc_counterexample :
    (framesOf (to_frames ([0x00] : List Nat) true true)).getD 2 [] ≠
      create_frame VERIFY ([0, 0] ++ toaddr 0 ++ crc [0x00]) := by
  decide

/-- C1 as the code has it: the VERIFY frame's payload is two zero bytes, the
big-endian address of the image's last byte, then the CRC of the
sentinel-substituted image `0xFF :: tl`, not of the original image
(efm8.py lines 116-122). -/
theorem verify_frame_payload (d0 : Nat) (tl : List Nat) (r : Bool)
    (fs : List (List Nat)) (post : List Nat)
    (h : to_frames (d0 :: tl) true r = some (fs, post)) :
    fs.getD (1 + (tl.length + 1 + 127) / 128) [] =
      create_frame VERIFY ([0, 0] ++ toaddr ((d0 :: tl).length - 1) ++ crc (0xFF :: tl)) := by
  rw [to_frames_cons] at h
  rw [Option.some.injEq, Prod.mk.injEq] at h
  obtain ⟨hfs, hpost⟩ := h
  subst hfs
  have hN : tl.length + 1 + 127 = tl.length + 128 := by omega
  rw [hN, show 1 + (tl.length + 128) / 128 = (tl.length + 128) / 128 + 1 by omega,
    List.getD_cons_succ,
    List.getD_append_right _ _ _ _ (by simp)]
  simp

/-- Witness for `verify_frame_payload` on the image `[0x00]`. -/
theorem verify_frame_payload_witness :
    (framesOf (to_frames ([0x00] : List Nat) true true)).getD 2 [] =
      create_frame VERIFY ([0, 0] ++ toaddr 0 ++ crc [0xFF]) := by
  have h := verify_frame_payload 0x00 [] true
    (framesOf (to_frames ([0x00] : List Nat) true true))
    (postOf (to_frames ([0x00] : List Nat) true true)) rfl
  simpa using h

/-- C2 counterexample: `to_frames` leaves the caller's buffer mutated - after
the call on `[0x12]` the buffer holds `[0xFF]`, not the original image; the
`data[0] = 0xFF` substitution at efm8.py line 106 is never reversed. -/
theorem image_mutation_counterexample :
    postOf (to_frames ([0x12] : List Nat) true true) = [0xFF] ∧
    ([0xFF] : List Nat) ≠ [0x12] := by
  decide

/-- C2 as the code has it: after `to_frames` returns, the caller's buffer is
`0xFF :: tl` - the sentinel substitution persists, so whenever the true first
byte differs from 0xFF the caller's image has changed. -/
theorem to_frames_post_buffer (d0 : Nat) (tl : List Nat) (c r : Bool)
    (fs : List (List Nat)) (post : List Nat)
    (h : to_frames (d0 :: tl) c r = some (fs, post)) :
    post = 0xFF :: tl ∧ (d0 ≠ 0xFF → post ≠ d0 :: tl) := by
  rw [to_frames_cons] at h
  rw [Option.some.injEq, Prod.mk.injEq] at h
  obtain ⟨hfs, hpost⟩ := h
  subst hpost
  refine ⟨rfl, fun hne hc => hne ?_⟩
  exact (List.cons.injEq _ _ _ _ ▸ hc).1.symm

/-- Witness for `to_frames_post_buffer` on the image `[0x12]`. -/
theorem to_frames_post_buffer_witness :
    postOf (to_frames ([0x12] : List Nat) true true) = [0xFF] ∧
    postOf (to_frames ([0x12] : List Nat) true true) ≠ [0x12] :=
  ⟨(to_frames_post_buffer 0x12 [] true true
      (framesOf (to_frames ([0x12] : List Nat) true true))
      (postOf (to_frames ([0x12] : List Nat) true true)) rfl).1,
    (to_frames_post_buffer 0x12 [] true true
      (framesOf (to_frames ([0x12] : List Nat) true true))
      (postOf (to_frames ([0x12] : List Nat) true true)) rfl).2 (by decide)⟩

/-- C6 counterexample: for the image `[0xFF]` (true first byte 0xFF), the
data byte for address 0 inside chunk 0's ERASE frame - a non-final frame -
equals the image's true first byte, so the transmitted byte is not "never
the image's true first byte".  (`getD 5` is the first chunk byte after
`'$'`, length, command and the 2 address bytes; the list has 5 frames, so
frame 1 is not the final restorative WRITE.) -/
theorem addr0_byte_counterexample :
    ((framesOf (to_frames ([0xFF] : List Nat) true true)).getD 1 []).getD 5 0 =
        ([0xFF] : List Nat).getD 0 0 ∧
    ((framesOf (to_frames ([0xFF] : List Nat) true true)).getD 1 []).getD 2 0 = ERASE ∧
    (framesOf (to_frames ([0xFF] : List Nat) true true)).length = 5 := by
  decide

/-- C6 as the code has it: the data byte transmitted for address 0 in chunk
0's frame is always the 0xFF sentinel, hence differs from the image's true
first byte whenever that byte is not itself 0xFF; and the true first byte is
carried in the final restorative 1-byte WRITE frame (efm8.py lines 105-106
and 123). -/
theorem addr0_sentinel_byte (d0 : Nat) (tl : List Nat) (c r : Bool)
    (fs : List (List Nat)) (post : List Nat)
    (h : to_frames (d0 :: tl) c r = some (fs, post)) :
    (fs.getD 1 []).getD 5 0 = 0xFF ∧
    (d0 ≠ 0xFF → (fs.getD 1 []).getD 5 0 ≠ d0) ∧
    (r = true → fs.dropLast.getLast? = some (create_frame WRITE [0, 0, d0])) ∧
    (r = false → fs.getLast? = some (create_frame WRITE [0, 0, d0])) := by
  rw [to_frames_cons] at h
  rw [Option.some.injEq, Prod.mk.injEq] at h
  obtain ⟨hfs, hpost⟩ := h
  subst hfs
  have hpos : 0 < (tl.length + 128) / 128 := Nat.div_pos (by omega) (by norm_num)
  have hchunk :
      ((create_frame SETUP [0xa5, 0xf1, 0x00] ::
        ((List.range ((tl.length + 128) / 128)).map (fun i =>
          create_frame (if 128 * i % 512 = 0 then ERASE else WRITE)
            (toaddr (128 * i) ++ pySlice (0xFF :: tl) (128 * i) (128 * i + 128)))
        ++ ((if c then
              [create_frame VERIFY ([0, 0] ++ toaddr tl.length ++ crc (0xFF :: tl))]
            else [])
        ++ ([create_frame WRITE [0, 0, d0]]
        ++ (if r then [create_frame RUN [0, 0]] else []))))).getD 1 []) =
      create_frame ERASE (0 :: 0 :: 0xFF :: tl.take 127) := by
    rw [show (1 : Nat) = 0 + 1 from rfl, List.getD_cons_succ,
      List.getD_append _ _ _ _ (by simp [hpos]),
      List.getD_eq_getElem _ _ (by simp [hpos])]
    simp [toaddr, pySlice]
  rw [hchunk]
  refine ⟨rfl, fun hne hc => hne ?_, ?_, ?_⟩
  · exact hc.symm
  · rintro rfl
    cases c <;>
    · simp [List.getLast?_cons, List.getLast?_append]
      first
      | exact dropLast_getLast_tail2 _ _ _ _
      | exact dropLast_getLast_tail3 _ _ _ _ _
  · rintro rfl
    cases c <;>
      simp [List.getLast?_cons, List.getLast?_append]

/-- Witness for `addr0_sentinel_byte` on the image `[0x12]`. -/
theorem addr0_sentinel_byte_witness :
    ((framesOf (to_frames ([0x12] : List Nat) true true)).getD 1 []).getD 5 0 = 0xFF ∧
    ((framesOf (to_frames ([0x12] : List Nat) true true)).getD 1 []).getD 5 0 ≠ 0x12 ∧
    (framesOf (to_frames ([0x12] : List Nat) true true)).dropLast.getLast? =
      some (create_frame WRITE [0, 0, 0x12]) := by
  have h := addr0_sentinel_byte 0x12 [] true true
    (framesOf (to_frames ([0x12] : List Nat) true true))
    (postOf (to_frames ([0x12] : List Nat) true true)) rfl
  exact ⟨h.1, h.2.1 (by decide), h.2.2.1 rfl⟩

/-- C7: a record line that passes the marker, type and address checks but
whose embedded checksum byte differs from the two's-complement checksum of
the record's bytes makes the parser fail with a checksum error, whatever
lines follow and whatever was already accumulated - no partial image is
returned (efm8.py lines 92-96). -/
theorem bad_checksum_rejected (line : List Char) (rest : List (List Char))
    (data : List Nat) (address cnt cb : Nat) (recbytes : List Nat)
    (hcolon : line.head? = some ':')
    (hela : startswith elaMark line = false)
    (heof : startswith eofMark line = false)
    (htype : pySlice line 7 9 = ['0', '0'])
    (haddr : parseHex (pySlice line 3 7) = some address)
    (hcnt : parseHex (pySlice line 1 3) = some cnt)
    (hcb : parseHex (pySlice line (9 + cnt * 2) (9 + cnt * 2 + 2)) = some cb)
    (hrec : parseHexPairs line (pyRange 1 (9 + cnt * 2) 2) = some recbytes)
    (hbad : (cb : Int) ≠ record_checksum recbytes) :
    readHexGo (line :: rest) data address = .error .badChecksum := by
  cases line with
  | nil => simp at hcolon
  | cons c cs =>
    have hc : c = ':' := by simpa using hcolon
    subst hc
    rw [readHexGo]
    simp [hela, heof, htype, haddr, hcnt, hcb, hrec, hbad]

/-- A number's `and` and `ldiff` against the same mask partition its bits. -/
lemma land_add_ldiff (m : Nat) : ∀ n, (m &&& n) + Nat.ldiff m n = m := by
  induction m using Nat.binaryRec with
  | z =>
    intro n
    have h2 : Nat.ldiff 0 n = 0 := by
      apply Nat.eq_of_testBit_eq
      intro i
      simp [Nat.testBit_ldiff]
    rw [Nat.zero_and, h2]
  | f b m ih =>
    intro n
    rw [← Nat.bit_decomp n, Nat.land_bit, Nat.ldiff_bit]
    have h := ih n.div2
    cases b <;> cases hb : n.bodd <;>
      simp [Nat.bit_val] <;> omega

/-- Computing `Nat.ldiff` as a kernel-reducible subtraction. -/
lemma ldiff_eq_sub (m n : Nat) : Nat.ldiff m n = m - (m &&& n) := by
  have := land_add_ldiff m n
  omega

/-- Closed form of the record checksum, computable on concrete byte lists. -/
lemma record_checksum_eval (bs : List Nat) :
    record_checksum bs = (((256 - bs.sum % 256) % 256 : Nat) : Int) := by
  unfold record_checksum
  rw [show (0xFF : Int) = ((255 : Nat) : Int) by norm_num, int_land_coe]
  rw [show ((bs.sum &&& 255 : Nat) : Int) = ((bs.sum % 256 : Nat) : Int) by
    rw [show (255 : Nat) = 2 ^ 8 - 1 by norm_num, Nat.and_pow_two_sub_one_eq_mod]]
  rw [twos_complement_eq_neg_mod 8 (by norm_num) _ (by omega)]
  omega

/-- Witness for `bad_checksum_rejected`: the record `:0100000012EE`, whose
correct checksum is 0xED. -/
theorem bad_checksum_rejected_witness :
    read_intel_hex [[':', '0', '1', '0', '0', '0', '0', '0', '0', '1', '2', 'E', 'E']] =
      .error .badChecksum :=
  bad_checksum_rejected
    [':', '0', '1', '0', '0', '0', '0', '0', '0', '1', '2', 'E', 'E'] [] [] 0
    1 0xEE [1, 0, 0, 0, 0x12] rfl (by decide) (by decide) (by decide)
    (by decide) (by decide) (by decide) (by decide)
    (by rw [record_checksum_eval]; decide)

/-- C8: a record line that passes the marker and type checks but whose
stated 16-bit load address differs from the running byte count accumulated
so far makes the parser fail with the unsupported-input error, whatever
follows - so an accepted data record always continues the image exactly at
its current length (efm8.py lines 90-91). -/
theorem nonlinear_rejected (line : List Char) (rest : List (List Char))
    (data : List Nat) (address a : Nat)
    (hcolon : line.head? = some ':')
    (hela : startswith elaMark line = false)
    (heof : startswith eofMark line = false)
    (htype : pySlice line 7 9 = ['0', '0'])
    (haddr : parseHex (pySlice line 3 7) = some a)
    (hne : a ≠ address) :
    readHexGo (line :: rest) data address = .error .unsupported := by
  cases line with
  | nil => simp at hcolon
  | cons c cs =>
    have hc : c = ':' := by simpa using hcolon
    subst hc
    rw [readHexGo]
    simp [hela, heof, htype, haddr, hne]

/-- Witness for `nonlinear_rejected`: the record `:0100100012DD` states load
address 0x0010 while the running byte count is 0. -/
theorem nonlinear_rejected_witness :
    read_intel_hex [[':', '0', '1', '0', '0', '1', '0', '0', '0', '1', '2', 'D', 'D']] =
      .error .unsupported :=
  nonlinear_rejected
    [':', '0', '1', '0', '0', '1', '0', '0', '0', '1', '2', 'D', 'D'] [] [] 0
    16 rfl (by decide) (by decide) (by decide) (by decide) (by decide)

/-- An `Except.ok` out of `finishHex` is the accumulated data, which the
guard has checked to be non-empty. -/
lemma finishHex_ok {d out : List Nat} (h : finishHex d = .ok out) : out ≠ [] := by
  unfold finishHex at h
  split at h
  · exact absurd h (by simp)
  · injection h with h
    subst h
    assumption

/-- Every `Except.ok` result of the parsing loop is a non-empty image: the
only successful exits go through `finishHex`, which rejects the empty
accumulation. -/
lemma readHexGo_ok_ne_nil :
    ∀ (lines : List (List Char)) (data : List Nat) (address : Nat)
      (out : List Nat), readHexGo lines data address = .ok out → out ≠ [] := by
  intro lines
  induction lines with
  | nil =>
    intro data address out h
    exact finishHex_ok h
  | cons line rest ih =>
    intro data address out h
    rw [readHexGo.eq_def] at h
    rcases line with _ | ⟨c, cs⟩
    · exact absurd h (by simp)
    · dsimp only at h
      repeat'
        first
        | exact ih _ _ _ h
        | exact finishHex_ok h
        | exact Except.noConfusion h
        | split at h

/-- C10: `to_frames` is undefined on the empty image - Python raises
IndexError at `data[0]` before building any frame - and the precondition is
always met in the parse-then-build pipeline, because every successful parse
returns a non-empty image (an empty accumulation raises the
unsupported-input error at efm8.py lines 99-100). -/
theorem empty_image_pipeline (c r : Bool) (ls : List (List Char)) (out : List Nat) :
    to_frames [] c r = none ∧ (read_intel_hex ls = .ok out → out ≠ []) :=
  ⟨rfl, fun h => readHexGo_ok_ne_nil ls [] 0 out h⟩

/-- Witness for `empty_image_pipeline`: the one-record file `:0100000012ED`
parses to the non-empty image `[0x12]`. -/
theorem empty_image_pipeline_witness :
    to_frames [] true true = none ∧ ([0x12] : List Nat) ≠ [] := by
  have hparse : read_intel_hex
      [[':', '0', '1', '0', '0', '0', '0', '0', '0', '1', '2', 'E', 'D']] = .ok [0x12] := by
    show readHexGo _ [] 0 = _
    rw [readHexGo.eq_def]
    simp only [record_checksum_eval]
    decide
  exact ⟨(empty_image_pipeline true true
      [[':', '0', '1', '0', '0', '0', '0', '0', '0', '1', '2', 'E', 'D']] [0x12]).1,
    (empty_image_pipeline true true
      [[':', '0', '1', '0', '0', '0', '0', '0', '0', '1', '2', 'E', 'D']] [0x12]).2 hparse⟩
